import Mathlib

/-!
Shallow embedding of the reconciliation engine and job pipeline of the
ai-invoice-matcher backend (src/backend/utils.py and src/backend/app.py).

Strings are modelled as Lean `String`s (lists of characters).  The model of
Python `str.lower` and of the whitespace class of `re` and `str.split` is
restricted to ASCII: the exotic Unicode casefolding and whitespace
code points do not occur in any behaviour the claims quantify over, and the
structural properties proved here are insensitive to the exact character
class.  Python numbers (JSON numbers: int / float) are modelled as exact
rationals; comparisons such as `abs(a - b) > 0.01` are exact on the model.
Python dictionaries with optional keys are modelled as structures with
`Option` fields; `d.get(k, default)` becomes `Option.getD`; a bare `d[k]`
access on a missing key raises `KeyError`, modelled in the `Except String`
monad.
-/

/-- The whitespace class used by the regex `\s` and by `str.split()`
(ASCII fragment). -/
def isPySpace (c : Char) : Bool :=
  c == ' ' || c == '\t' || c == '\n' || c == '\r' || c == '\x0b' || c == '\x0c'

/-- Lowercase ASCII letter or digit: the characters the regex
`[^a-z0-9\s]` keeps, whitespace apart. -/
def isLowerAlphaNum (c : Char) : Bool :=
  (decide ('a' ≤ c) && decide (c ≤ 'z')) || (decide ('0' ≤ c) && decide (c ≤ '9'))

/-- A character kept by `re.sub(r'[^a-z0-9\s]', '', text)`. -/
def keepChar (c : Char) : Bool :=
  isLowerAlphaNum c || isPySpace c

/-- Python `str.lower` (ASCII fragment): maps A-Z to a-z, fixes the rest. -/
def pyLower (c : Char) : Char :=
  if decide ('A' ≤ c) && decide (c ≤ 'Z') then Char.ofNat (c.toNat + 32) else c

/-- Python `text.split()`: split on runs of whitespace, dropping empty
words (no leading or trailing empty pieces). -/
def pySplit : List Char → List (List Char)
  | [] => []
  | c :: rest =>
    if isPySpace c then pySplit rest
    else
      match rest with
      | [] => [[c]]
      | d :: _ =>
        if isPySpace d then [c] :: pySplit rest
        else
          match pySplit rest with
          | [] => [[c]]
          | w :: ws => (c :: w) :: ws

/-- Python `' '.join(words)` at the character-list level. -/
def joinSp : List (List Char) → List Char
  | [] => []
  | [w] => w
  | w :: x :: ws => w ++ ' ' :: joinSp (x :: ws)

/-- `normalize_text` on character lists: lowercase, drop every character
that is not a lowercase letter, digit or whitespace, then collapse
whitespace runs to single spaces and trim the ends. -/
def normalizeL (l : List Char) : List Char :=
  joinSp (pySplit ((l.map pyLower).filter keepChar))

/-- `normalize_text` from src/backend/utils.py:

    text = text.lower()
    text = re.sub(r'[^a-z0-9\s]', '', text)
    return ' '.join(text.split())
-/
def normalize_text (s : String) : String :=
  String.mk (normalizeL s.data)

/-- No two consecutive spaces occur in the list. -/
def noDoubleSpace : List Char → Bool
  | [] => true
  | [_] => true
  | a :: b :: t => !(a == ' ' && b == ' ') && noDoubleSpace (b :: t)

/-- Python `a in b` for strings, on character lists: `a` occurs as a
contiguous substring of `b` (the empty string occurs in everything). -/
def strContains : List Char → List Char → Bool
  | a, [] => a.isEmpty
  | a, b :: bs => List.isPrefixOf a (b :: bs) || strContains a bs

/-- A line item of an extracted document: the keys the matching code reads.
Every key may be absent (`None`-free modelling of a missing dict key). -/
structure LineItem where
  description : Option String
  quantity : Option ℚ
  unit_price : Option ℚ
deriving DecidableEq, Repr

/-- A structured document as consumed by `perform_matching`: the keys it
reads (`document_type` and `document_id` are never consulted). -/
structure Document where
  vendor_name : Option String
  total_amount : Option ℚ
  items : Option (List LineItem)
deriving DecidableEq, Repr

/-- The containment test of `find_best_item_match`: one normalized
description is contained in the other. -/
def itemMatches (invoice_item po_item : LineItem) : Bool :=
  let inv := (normalize_text (invoice_item.description.getD "")).data
  let po := (normalize_text (po_item.description.getD "")).data
  strContains inv po || strContains po inv

/-- `find_best_item_match` from src/backend/utils.py: scan `po_items` in
order, return the first whose normalized description is contained in the
invoice item description or contains it; `None` when no candidate fits. -/
def find_best_item_match (invoice_item : LineItem) (po_items : List LineItem) :
    Option LineItem :=
  po_items.find? (itemMatches invoice_item)

/-- The matched item together with the pool it leaves behind.  Python
`po_items_remaining.remove(matched_po_item)` deletes the first element
structurally equal to the match; since the match is the first element
satisfying the (description-only) containment test and equal dicts have
equal descriptions, the deleted occurrence is exactly the matched one, so
the removal is remove-at-the-match-position. -/
def extractFirstMatch (invoice_item : LineItem) :
    List LineItem → Option (LineItem × List LineItem)
  | [] => none
  | po :: rest =>
    if itemMatches invoice_item po then some (po, rest)
    else
      match extractFirstMatch invoice_item rest with
      | some (m, rest') => some (m, po :: rest')
      | none => none

/-- Round to the nearest integer, ties to even (Python `round` and the
rounding of the `:.2f` format applied to an exact rational value). -/
def roundHalfEven (q : ℚ) : ℤ :=
  let f := ⌊q⌋
  let r := q - f
  if r < 1/2 then f
  else if 1/2 < r then f + 1
  else if f % 2 = 0 then f else f + 1

/-- Python `round(x, 2)`. -/
def round2 (q : ℚ) : ℚ :=
  (roundHalfEven (q * 100) : ℚ) / 100

/-- Python `f"{x:.2f}"`: fixed two-decimal rendering. -/
def fmt2 (q : ℚ) : String :=
  let c := roundHalfEven (q * 100)
  let sign := if c < 0 then "-" else ""
  let n := c.natAbs
  let cents := n % 100
  sign ++ toString (n / 100) ++ "." ++ (if cents < 10 then "0" else "") ++ toString cents

/-- Python string interpolation of a value that may be `None`
(`d.get(k)` with no default renders as `None` when the key is absent). -/
def pyStrOpt : Option String → String
  | none => "None"
  | some s => s

/-- Rendering of a numeric value inside a detail line (`f"{qty}"`).  The
exact decimal notation Python prints for a float is not modelled; no claim
depends on the digits of this rendering. -/
def pyNum (q : ℚ) : String :=
  if q.den = 1 then toString q.num else toString q.num ++ "/" ++ toString q.den

/-- What Python str renders a KeyError for the description key as: the
message recorded when the code reads the description key of an item that
lacks it. -/
def keyErrorDescription : String := "\x27description\x27"

/-- The comparison `abs(inv_total - po_total) > 0.01` (also used for unit
prices). -/
def toleranceExceeded (a b : ℚ) : Bool :=
  decide (|a - b| > 1/100)

/-- The comparison `abs(inv_qty - po_qty) > 0`. -/
def qtyDiffers (a b : ℚ) : Bool :=
  decide (|a - b| > 0)

/-- Detail lines of `perform_matching`, verbatim from the f-strings in
src/backend/utils.py. -/
def vendorMismatchDetail (iv pv : Option String) : String :=
  "Vendor Mismatch: Invoice: \x27" ++ pyStrOpt iv ++ "\x27 vs. PO: \x27" ++ pyStrOpt pv ++ "\x27"

def vendorMatchDetail (iv : Option String) : String :=
  "Vendor Match: " ++ pyStrOpt iv

def totalMismatchDetail (ti tp : ℚ) : String :=
  "Total Amount Mismatch: Invoice: $" ++ fmt2 ti ++ " vs. PO: $" ++ fmt2 tp ++
    ". Difference: $" ++ fmt2 (round2 |ti - tp|)

def totalMatchDetail (ti : ℚ) : String :=
  "Total Amount Match: $" ++ fmt2 ti

def qtyMismatchDetail (d : String) (iq pq : ℚ) : String :=
  "⚠️ QTY MISMATCH for Item \x27" ++ d ++ "\x27: Invoice Qty (" ++ pyNum iq ++
    ") != PO Qty (" ++ pyNum pq ++ ")"

def priceMismatchDetail (d : String) (ip pp : ℚ) : String :=
  "⚠️ PRICE MISMATCH for Item \x27" ++ d ++ "\x27: Invoice Price ($" ++ fmt2 ip ++
    ") != PO Price ($" ++ fmt2 pp ++ ")"

def unmatchedDetail (d : String) : String :=
  "❌ UNMATCHED ITEM: Invoice item \x27" ++ d ++ "\x27 not found on PO."

def missingDetail (n : Nat) : String :=
  "❌ MISSING ITEMS: " ++ toString n ++ " item(s) ordered on PO but not found on Invoice."

def allVerifiedDetail : String := "✓ All Line Items Verified."

/-- The summary placed in the result dict at construction. -/
def initialSummary : String :=
  "Perfect 2-Way Match! Vendor and Total Amount verified."

/-- The fixed success sentence written when `isMatch` survives all checks. -/
def matchSummary : String :=
  "Perfect 2-Way Match! All key fields and line items verified and approved for payment processing."

/-- The fixed template sentence around the joined category list. -/
def discrepancySummary (cl : String) : String :=
  "⚠️ CRITICAL DISCREPANCY: Review required due to " ++ cl ++
    ". Please check the Verification Details below."

/-- Python `", ".join(l)`. -/
def joinComma : List String → String
  | [] => ""
  | [s] => s
  | s :: t :: r => s ++ ", " ++ joinComma (t :: r)

/-- Strict lexicographic code-point order on strings: the order Python
`sorted` uses for `str`. -/
def strLtb : List Char → List Char → Bool
  | [], [] => false
  | [], _ :: _ => true
  | _ :: _, [] => false
  | a :: as, b :: bs => if a < b then true else if b < a then false else strLtb as bs

def strLe (s t : String) : Bool :=
  !strLtb t.data s.data

/-- Python `sorted` on strings, as insertion sort over `strLe`. -/
def insertStr (s : String) : List String → List String
  | [] => [s]
  | t :: ts => if strLe s t then s :: t :: ts else t :: insertStr s ts

def sortStrs : List String → List String
  | [] => []
  | s :: ss => insertStr s (sortStrs ss)

/-- The mutable state threaded through `perform_matching`: the fields of
the `results` dict the line-item loop can touch, the local
`line_item_mismatch` flag and the `po_items_remaining` pool. -/
structure LoopState where
  isMatch : Bool
  lineMismatch : Bool
  details : List String
  cats : List String
  pool : List LineItem
deriving DecidableEq, Repr

/-- The three assignments the source performs on every line-item failure:
`results["isMatch"] = False`, `line_item_mismatch = True`, and an append
to `results["details"]`. -/
def addMismatch (st : LoopState) (line : String) : LoopState :=
  { st with isMatch := false, lineMismatch := true, details := st.details ++ [line] }

/-- Direct dictionary access to the description key of an invoice item;
raises KeyError when the key is absent. -/
def getDesc (it : LineItem) : Except String String :=
  match it.description with
  | some d => Except.ok d
  | none => Except.error keyErrorDescription

/-- Python truthiness of a line-item dict: `if matched_po_item:` is false
both for `None` and for an empty dict.  Restricted to the three keys the
schema and the matching code use, a dict is empty exactly when all three
are absent. -/
def pyTruthy (it : LineItem) : Bool :=
  it.description.isSome || it.quantity.isSome || it.unit_price.isSome

/-- One iteration of the `for inv_item in inv_items` loop of
`perform_matching`.  The source branches on `if matched_po_item:` — a
truthiness test, not an is-not-None test — so a matched but *empty* dict
falls into the unmatched branch and is never removed from the pool; only
a truthy match is compared (quantity exactly, unit price with tolerance
0.01) and consumed. -/
def stepOne (invoice_item : LineItem) (st : LoopState) : Except String LoopState :=
  match extractFirstMatch invoice_item st.pool with
  | some (m, pool') =>
    if pyTruthy m then do
      let iq := invoice_item.quantity.getD 0
      let pq := m.quantity.getD 0
      let st1 ←
        if qtyDiffers iq pq then do
          let d ← getDesc invoice_item
          pure (addMismatch st (qtyMismatchDetail d iq pq))
        else pure st
      let ip := invoice_item.unit_price.getD 0
      let pp := m.unit_price.getD 0
      let st2 ←
        if toleranceExceeded ip pp then do
          let d ← getDesc invoice_item
          pure (addMismatch st1 (priceMismatchDetail d ip pp))
        else pure st1
      pure { st2 with pool := pool' }
    else do
      let d ← getDesc invoice_item
      pure (addMismatch st (unmatchedDetail d))
  | none => do
    let d ← getDesc invoice_item
    pure (addMismatch st (unmatchedDetail d))

/-- The whole line-item loop. -/
def itemLoop : List LineItem → LoopState → Except String LoopState
  | [], st => Except.ok st
  | it :: rest, st => (stepOne it st).bind (itemLoop rest)

/-- Steps 1 and 2 of `perform_matching` (vendor check, total check),
producing the state in which the line-item loop starts. -/
def initResults (invoice_data po_data : Document) : LoopState :=
  let inv_vendor := normalize_text (invoice_data.vendor_name.getD "")
  let po_vendor := normalize_text (po_data.vendor_name.getD "")
  let vendorOk : Bool := inv_vendor == po_vendor
  let vd : List String :=
    if vendorOk then [vendorMatchDetail invoice_data.vendor_name]
    else [vendorMismatchDetail invoice_data.vendor_name po_data.vendor_name]
  let vc : List String := if vendorOk then [] else ["Vendor Mismatch"]
  let inv_total := invoice_data.total_amount.getD 0
  let po_total := po_data.total_amount.getD 0
  let totalBad := toleranceExceeded inv_total po_total
  let td : List String :=
    if totalBad then [totalMismatchDetail inv_total po_total]
    else [totalMatchDetail inv_total]
  let tc : List String := if totalBad then ["Total Price Variance"] else []
  { isMatch := vendorOk && !totalBad,
    lineMismatch := false,
    details := vd ++ td,
    cats := vc ++ tc,
    pool := po_data.items.getD [] }

/-- The verdict returned by `perform_matching`. -/
structure ReconciliationResult where
  isMatch : Bool
  status : String
  summary : String
  details : List String
  mismatch_categories : List String
  invoice_data : Document
  po_data : Document
deriving DecidableEq, Repr

/-- Steps after the loop: the leftover-pool check, the line-item category
or the all-verified line, and the summary synthesis (step 4). -/
def finalize (invoice_data po_data : Document) (st : LoopState) : ReconciliationResult :=
  let st1 :=
    if st.pool.isEmpty then st
    else addMismatch st (missingDetail st.pool.length)
  let cats := st1.cats ++ (if st1.lineMismatch then ["Line Item Discrepancy"] else [])
  let details := st1.details ++ (if st1.lineMismatch then [] else [allVerifiedDetail])
  if st1.isMatch then
    { isMatch := true, status := "APPROVED", summary := matchSummary,
      details := details, mismatch_categories := cats,
      invoice_data := invoice_data, po_data := po_data }
  else
    { isMatch := false, status := "NEEDS REVIEW",
      summary := discrepancySummary (joinComma (sortStrs cats.dedup)),
      details := details, mismatch_categories := cats,
      invoice_data := invoice_data, po_data := po_data }

/-- `perform_matching` from src/backend/utils.py.  The `Except` value is
the propagation of the `KeyError` the code raises when it interpolates a
missing invoice-item description into a mismatch detail line. -/
def perform_matching (invoice_data po_data : Document) :
    Except String ReconciliationResult :=
  (itemLoop (invoice_data.items.getD []) (initResults invoice_data po_data)).map
    (finalize invoice_data po_data)

/-! Model of the background pipeline `run_matching_job` in
src/backend/app.py.  The external calls (text extraction, the Gemini
structured-extraction adapter) are oracles supplied as an environment:
`Except String α` stands for a Python call that either returns a value or
raises an exception whose `str` is the given message. -/

/-- The value `gemini_extract_data` hands back: either the parsed
structured document or a dict carrying only an `error` key (the function
catches its own exceptions and never raises). -/
inductive GemOut where
  | doc (d : Document)
  | err (msg : String)
deriving DecidableEq, Repr

/-- One run of the external collaborators of the pipeline. -/
structure PipelineEnv where
  clientOk : Bool
  extractInvoice : Except String String
  extractPo : Except String String
  geminiInvoice : GemOut
  geminiPo : GemOut

/-- The hard-coded mock invoice substituted when the AI client is not
initialized. -/
def mockInvoice : Document :=
  ⟨some "TechSupply Co.", some 1295, some [⟨some "Laptop", some 1, some 1200⟩]⟩

/-- The hard-coded mock purchase order substituted when the AI client is
not initialized. -/
def mockPo : Document :=
  ⟨some "TechSupply Co.", some 1295, some [⟨some "Laptop", some 1, some 1200⟩]⟩

/-- `raw_text.startswith("Error")`: the sentinel convention of the
extraction adapter. -/
def startsWithError (s : String) : Bool :=
  List.isPrefixOf "Error".data s.data

/-- The body of the `try:` block of `run_matching_job`, as the exceptions
it can raise or the reconciliation result it produces.  Progress writes are
omitted: every terminal path overwrites `progress` with 100. -/
def pipelineBody (env : PipelineEnv) : Except String ReconciliationResult := do
  let rawInvoiceText ← env.extractInvoice
  let rawPoText ← env.extractPo
  if startsWithError rawInvoiceText || startsWithError rawPoText then
    throw ("File Extraction Error: " ++ rawInvoiceText ++ " | " ++ rawPoText)
  let invoice_data ←
    if env.clientOk then
      match env.geminiInvoice with
      | GemOut.doc d => pure d
      | GemOut.err m => throw ("AI Extraction Error (Invoice): " ++ m)
    else pure mockInvoice
  let po_data ←
    if env.clientOk then
      match env.geminiPo with
      | GemOut.doc d => pure d
      | GemOut.err m => throw ("AI Extraction Error (PO): " ++ m)
    else pure mockPo
  perform_matching invoice_data po_data

/-- A record of the job manager (`job_manager[job_id]`). -/
structure Job where
  status : String
  progress : Nat
  results : Option ReconciliationResult
  error : Option String
deriving Repr

/-- `run_matching_job` from src/backend/app.py, as the transformation of
the job record it performs: the `try:` body runs, a success stores the
results and marks the job completed, and the top-level `except` handler
records `str(e)` and marks the job failed with progress 100. -/
def run_matching_job (env : PipelineEnv) (job : Job) : Job :=
  match pipelineBody env with
  | Except.ok r => { job with results := some r, progress := 100, status := "completed" }
  | Except.error e => { job with error := some e, status := "failed", progress := 100 }

/-- The result of reconciling the two mock documents. -/
def mockResult : ReconciliationResult :=
  { isMatch := true, status := "APPROVED", summary := matchSummary,
    details := ["Vendor Match: TechSupply Co.", "Total Amount Match: $1295.00",
      allVerifiedDetail],
    mismatch_categories := [],
    invoice_data := mockInvoice, po_data := mockPo }

/-- A fresh job record as `submit_job` creates it. -/
def freshJob : Job :=
  { status := "processing", progress := 0, results := none, error := none }

/-- An environment whose invoice extraction raises. -/
def envRaise : PipelineEnv :=
  { clientOk := true, extractInvoice := Except.error "boom", extractPo := Except.ok "",
    geminiInvoice := GemOut.doc mockInvoice, geminiPo := GemOut.doc mockPo }

/-- An environment with no AI client whose invoice extraction returns the
adapter's error-sentinel string. -/
def envNoClientBadFile : PipelineEnv :=
  { clientOk := false, extractInvoice := Except.ok "Error extracting image text (OCR): x",
    extractPo := Except.ok "some text",
    geminiInvoice := GemOut.doc mockInvoice, geminiPo := GemOut.doc mockPo }

/-- An environment with no AI client and successful extractions. -/
def envNoClientOk : PipelineEnv :=
  { clientOk := false, extractInvoice := Except.ok "invoice text",
    extractPo := Except.ok "po text",
    geminiInvoice := GemOut.doc mockInvoice, geminiPo := GemOut.doc mockPo }

/-- An invoice carrying one line item with no description, against a PO
with no items. -/
def invNoDesc : Document := ⟨none, none, some [⟨none, none, none⟩]⟩

def poEmpty : Document := ⟨none, none, some []⟩

/-- A line item named a, and a loop state whose pool holds exactly it. -/
def itA : LineItem := ⟨some "a", none, none⟩

def stA : LoopState := ⟨true, false, [], [], [itA]⟩

/-- A document pair with no items and a large total difference. -/
def invT : Document := ⟨none, some 100, none⟩

def poT : Document := ⟨none, some 200, none⟩

/-- A document pair where the invoice bills nothing but the PO ordered one
item. -/
def invEmptyItems : Document := ⟨none, none, none⟩

def poOneItem : Document := ⟨none, none, some [itA]⟩

/-- The empty dict: falsy in Python. -/
def itEmpty : LineItem := ⟨none, none, none⟩

/-- A line item whose description is present but normalizes to empty. -/
def itEmptyDesc : LineItem := ⟨some "", none, none⟩

/-- An invoice billing one item named a, against a PO whose only line item
is the empty dict. -/
def invA : Document := ⟨none, none, some [itA]⟩

def poEmptyItem : Document := ⟨none, none, some [itEmpty]⟩

/-- The result of reconciling `invA` against `poEmptyItem`: the matcher
returns the empty dict, the truthiness check routes to the unmatched
branch, and the never-removed PO item is counted missing. -/
def rC3cex : ReconciliationResult :=
  { isMatch := false, status := "NEEDS REVIEW",
    summary := discrepancySummary "Line Item Discrepancy",
    details := ["Vendor Match: None", "Total Amount Match: $0.00",
      unmatchedDetail "a", missingDetail 1],
    mismatch_categories := ["Line Item Discrepancy"],
    invoice_data := invA, po_data := poEmptyItem }

/-! Helper lemmas about the matcher. -/

/-- The normalized description a line item is compared by. -/
def normDesc (it : LineItem) : List Char :=
  (normalize_text (it.description.getD "")).data

theorem strContains_iff (a : List Char) : ∀ b, strContains a b = true ↔ a <:+: b := by
  intro b
  induction b with
  | nil =>
    simp [strContains, List.isEmpty_iff]
  | cons c cs ih =>
    simp [strContains, List.infix_cons_iff, ih]

theorem strContains_nil_left (b : List Char) : strContains [] b = true := by
  cases b <;> simp [strContains, List.isPrefixOf]

theorem itemMatches_iff (a b : LineItem) :
    itemMatches a b = true ↔ (normDesc a <:+: normDesc b ∨ normDesc b <:+: normDesc a) := by
  simp [itemMatches, normDesc, strContains_iff]

theorem extractFirstMatch_some (it : LineItem) :
    ∀ pool m p', extractFirstMatch it pool = some (m, p') →
      ∃ l₁ l₂, pool = l₁ ++ m :: l₂ ∧ p' = l₁ ++ l₂ ∧ itemMatches it m = true ∧
        ∀ x ∈ l₁, itemMatches it x = false := by
  intro pool
  induction pool with
  | nil => intro m p' h; simp [extractFirstMatch] at h
  | cons po rest ih =>
    intro m p' h
    by_cases hpo : itemMatches it po
    · simp [extractFirstMatch, hpo] at h
      exact ⟨[], rest, by simp [h.1, h.2], by simp [h.2], h.1 ▸ hpo, by simp⟩
    · simp [extractFirstMatch, hpo] at h
      match hrec : extractFirstMatch it rest with
      | none => rw [hrec] at h; simp at h
      | some (m', r') =>
        rw [hrec] at h
        simp at h
        obtain ⟨l₁, l₂, hpool, hp', hm, hl₁⟩ := ih m' r' hrec
        refine ⟨po :: l₁, l₂, by simp [hpool, h.1], ?_, h.1 ▸ hm, ?_⟩
        · simp [← h.2, hp']
        · intro x hx
          rcases List.mem_cons.mp hx with rfl | hx'
          · simpa using hpo
          · exact hl₁ x hx'

theorem extractFirstMatch_cons (it po : LineItem) (rest : List LineItem) :
    extractFirstMatch it (po :: rest) =
      if itemMatches it po then some (po, rest)
      else
        match extractFirstMatch it rest with
        | some (m, rest') => some (m, po :: rest')
        | none => none := rfl

theorem extractFirstMatch_none (it : LineItem) :
    ∀ pool, extractFirstMatch it pool = none ↔ ∀ x ∈ pool, itemMatches it x = false := by
  intro pool
  induction pool with
  | nil => simp [extractFirstMatch]
  | cons po rest ih =>
    rw [extractFirstMatch_cons]
    by_cases hpo : itemMatches it po
    · rw [if_pos hpo]
      constructor
      · intro h; exact absurd h (by simp)
      · intro h
        exact absurd (h po (List.mem_cons_self po rest)) (by simp [hpo])
    · rw [if_neg hpo]
      cases hrec : extractFirstMatch it rest with
      | none =>
        have hrest := ih.mp hrec
        simp only []
        constructor
        · intro _ x hx
          rcases List.mem_cons.mp hx with rfl | hx'
          · exact Bool.eq_false_iff.mpr hpo
          · exact hrest x hx'
        · intro _; trivial
      | some mp =>
        simp only []
        constructor
        · intro h; exact absurd h (by simp)
        · intro h
          have hnone : extractFirstMatch it rest = none :=
            ih.mpr (fun x hx => h x (List.mem_cons_of_mem po hx))
          rw [hnone] at hrec
          exact absurd hrec (by simp)

/-- `list.remove(find_best_item_match(...))` removes exactly the matched
element: the first component of `extractFirstMatch` is the function
`find_best_item_match` itself. -/
theorem extractFirstMatch_fst (it : LineItem) :
    ∀ pool, (extractFirstMatch it pool).map Prod.fst = find_best_item_match it pool := by
  intro pool
  induction pool with
  | nil => simp [extractFirstMatch, find_best_item_match]
  | cons po rest ih =>
    by_cases hpo : itemMatches it po
    · simp [extractFirstMatch, find_best_item_match, List.find?_cons, hpo]
    · simp only [extractFirstMatch, if_neg hpo, find_best_item_match, List.find?_cons,
        hpo, Bool.false_eq_true, if_false]
      simp only [find_best_item_match] at ih
      match hrec : extractFirstMatch it rest with
      | none => rw [hrec] at ih; simpa using ih
      | some (m', r') => rw [hrec] at ih; simpa using ih

/-- C2: `find_best_item_match` returns the first candidate in pool order
whose normalized description is contained in the invoice item's normalized
description or contains it, and returns `None` exactly when no candidate
satisfies this bidirectional containment.  (The pool is a value the
function never mutates; pool reduction happens only in the caller.) -/
theorem C2_find_first_containment (invoice_item : LineItem) (pool : List LineItem) :
    (∀ m, find_best_item_match invoice_item pool = some m →
      (normDesc invoice_item <:+: normDesc m ∨ normDesc m <:+: normDesc invoice_item) ∧
      ∃ l₁ l₂, pool = l₁ ++ m :: l₂ ∧
        ∀ x ∈ l₁,
          ¬(normDesc invoice_item <:+: normDesc x ∨ normDesc x <:+: normDesc invoice_item)) ∧
    (find_best_item_match invoice_item pool = none ↔
      ∀ x ∈ pool,
        ¬(normDesc invoice_item <:+: normDesc x ∨ normDesc x <:+: normDesc invoice_item)) := by
  constructor
  · intro m hm
    rw [find_best_item_match, List.find?_eq_some] at hm
    obtain ⟨hmatch, l₁, l₂, hpool, hl₁⟩ := hm
    refine ⟨(itemMatches_iff _ _).mp hmatch, l₁, l₂, hpool, ?_⟩
    intro x hx
    have := hl₁ x hx
    rw [← itemMatches_iff]
    simpa using this
  · rw [find_best_item_match, List.find?_eq_none]
    constructor
    · intro h x hx
      rw [← itemMatches_iff]
      simpa using h x hx
    · intro h x hx
      have := h x hx
      rw [← itemMatches_iff] at this
      simpa using this

/-- Witness for C2 at a concrete pool. -/
theorem C2_find_first_containment_witness :
    (normDesc ⟨some "Laptop Pro", none, none⟩ <:+: normDesc ⟨some "laptop", none, none⟩ ∨
      normDesc ⟨some "laptop", none, none⟩ <:+: normDesc ⟨some "Laptop Pro", none, none⟩) ∧
    ∃ l₁ l₂,
      [(⟨some "Mouse", none, none⟩ : LineItem), ⟨some "laptop", none, none⟩] =
        l₁ ++ (⟨some "laptop", none, none⟩ : LineItem) :: l₂ ∧
      ∀ x ∈ l₁,
        ¬(normDesc ⟨some "Laptop Pro", none, none⟩ <:+: normDesc x ∨
          normDesc x <:+: normDesc ⟨some "Laptop Pro", none, none⟩) :=
  (C2_find_first_containment ⟨some "Laptop Pro", none, none⟩
      [⟨some "Mouse", none, none⟩, ⟨some "laptop", none, none⟩]).1
    ⟨some "laptop", none, none⟩ (by decide)

/-- The matcher does return the head of the pool for an
empty-normalized-description invoice item: the empty string is contained
in every normalized candidate description. -/
theorem empty_desc_matches_head (it hd : LineItem) (t : List LineItem)
    (h : normalize_text (it.description.getD "") = "") :
    find_best_item_match it (hd :: t) = some hd ∧
    extractFirstMatch it (hd :: t) = some (hd, t) := by
  have hm : itemMatches it hd = true := by
    have hdata : (normalize_text (it.description.getD "")).data = [] := by rw [h]
    simp [itemMatches, hdata, strContains_nil_left]
  exact ⟨by simp [find_best_item_match, List.find?_cons, hm], by simp [extractFirstMatch, hm]⟩

/-- The two mock documents reconcile to `mockResult`. -/
theorem mockMatch : perform_matching mockInvoice mockPo = Except.ok mockResult := by
  with_unfolding_all rfl

theorem bindOk {α β : Type} (a : α) (f : α → Except String β) :
    (Except.ok a : Except String α) >>= f = f a := rfl

theorem bindError {α β : Type} (e : String) (f : α → Except String β) :
    (Except.error e : Except String α) >>= f = Except.error e := rfl

/-- C8: reconciliation is deterministic — two calls with identical inputs
agree in every field of the returned `ReconciliationResult` (the model is
a pure function: no I/O and no randomness occur in `perform_matching`). -/
theorem C8_reconcile_deterministic (invoice_data po_data : Document)
    (r₁ r₂ : ReconciliationResult)
    (h₁ : perform_matching invoice_data po_data = Except.ok r₁)
    (h₂ : perform_matching invoice_data po_data = Except.ok r₂) :
    r₁.isMatch = r₂.isMatch ∧ r₁.status = r₂.status ∧ r₁.summary = r₂.summary ∧
    r₁.details = r₂.details ∧ r₁.mismatch_categories = r₂.mismatch_categories ∧
    r₁.invoice_data = r₂.invoice_data ∧ r₁.po_data = r₂.po_data := by
  rw [h₁] at h₂
  injection h₂ with h
  subst h
  exact ⟨rfl, rfl, rfl, rfl, rfl, rfl, rfl⟩

/-- Witness for C8 at the mock documents. -/
theorem C8_reconcile_deterministic_witness :
    mockResult.isMatch = mockResult.isMatch ∧ mockResult.status = mockResult.status ∧
    mockResult.summary = mockResult.summary ∧ mockResult.details = mockResult.details ∧
    mockResult.mismatch_categories = mockResult.mismatch_categories ∧
    mockResult.invoice_data = mockResult.invoice_data ∧
    mockResult.po_data = mockResult.po_data :=
  C8_reconcile_deterministic mockInvoice mockPo mockResult mockResult mockMatch mockMatch

/-- C7: any exception raised by the pipeline body is caught: the job ends
failed with progress 100 and the exception message in `error`; no run of
`run_matching_job` leaves the job with status `processing`. -/
theorem C7_job_failure_capture :
    (∀ (env : PipelineEnv) (job : Job) (e : String),
      pipelineBody env = Except.error e →
      (run_matching_job env job).status = "failed" ∧
      (run_matching_job env job).progress = 100 ∧
      (run_matching_job env job).error = some e) ∧
    (∀ (env : PipelineEnv) (job : Job), (run_matching_job env job).status ≠ "processing") := by
  constructor
  · intro env job e h
    simp [run_matching_job, h]
  · intro env job
    cases h : pipelineBody env <;> simp [run_matching_job, h]

/-- Witness for C7: an environment whose invoice extraction raises. -/
theorem C7_job_failure_capture_witness :
    ((run_matching_job envRaise freshJob).status = "failed" ∧
     (run_matching_job envRaise freshJob).progress = 100 ∧
     (run_matching_job envRaise freshJob).error = some "boom") ∧
    (run_matching_job envRaise freshJob).status ≠ "processing" :=
  ⟨C7_job_failure_capture.1 envRaise freshJob "boom" rfl,
   C7_job_failure_capture.2 envRaise freshJob⟩

/-- Counterexample to C10 as stated: with the AI client uninitialized, a
file whose extraction yields an `Error`-prefixed sentinel string makes the
job fail before the mock substitution — the job does not complete with
`isMatch` true regardless of the contents of the uploaded files. -/
theorem C10_counterexample :
    (run_matching_job envNoClientBadFile freshJob).status = "failed" ∧
    (run_matching_job envNoClientBadFile freshJob).results = none := by
  constructor <;> with_unfolding_all rfl

/-- C10 (amended): when the AI client is not initialized and neither
extracted text carries the `Error` sentinel, the pipeline substitutes the
fixed mock records for both documents and the job completes with a result
whose `isMatch` is true. -/
theorem C10_mock_substitution (env : PipelineEnv) (job : Job) (s t : String)
    (hc : env.clientOk = false)
    (hs : env.extractInvoice = Except.ok s) (ht : env.extractPo = Except.ok t)
    (hse : startsWithError s = false) (hte : startsWithError t = false) :
    pipelineBody env = perform_matching mockInvoice mockPo ∧
    (run_matching_job env job).status = "completed" ∧
    (run_matching_job env job).results = some mockResult ∧
    mockResult.isMatch = true := by
  have hbody : pipelineBody env = perform_matching mockInvoice mockPo := by
    simp [pipelineBody, hs, ht, hc, hse, hte, bindOk]
  refine ⟨hbody, ?_, ?_, rfl⟩
  · simp [run_matching_job, hbody, mockMatch]
  · simp [run_matching_job, hbody, mockMatch]

/-- Witness for the amended C10. -/
theorem C10_mock_substitution_witness :
    pipelineBody envNoClientOk = perform_matching mockInvoice mockPo ∧
    (run_matching_job envNoClientOk freshJob).status = "completed" ∧
    (run_matching_job envNoClientOk freshJob).results = some mockResult ∧
    mockResult.isMatch = true :=
  C10_mock_substitution envNoClientOk freshJob "invoice text" "po text" rfl rfl rfl rfl rfl

theorem pureOk {α : Type} (a : α) : (pure a : Except String α) = Except.ok a := rfl

theorem exBindOk {α β : Type} (a : α) (f : α → Except String β) :
    (Except.ok a : Except String α).bind f = f a := rfl

theorem exBindError {α β : Type} (e : String) (f : α → Except String β) :
    (Except.error e : Except String α).bind f = Except.error e := rfl

/-- When the invoice item carries a description, one loop step always
succeeds. -/
theorem stepOne_ok (it : LineItem) (st : LoopState) (h : it.description.isSome) :
    ∃ st', stepOne it st = Except.ok st' := by
  obtain ⟨d, hd⟩ := Option.isSome_iff_exists.mp h
  cases hres : stepOne it st with
  | ok st' => exact ⟨st', rfl⟩
  | error e =>
    exfalso
    cases hm : extractFirstMatch it st.pool with
    | none => simp [stepOne, hm, getDesc, hd, bindOk, pureOk] at hres
    | some mp =>
      obtain ⟨m, p'⟩ := mp
      by_cases htr : pyTruthy m = true
      · by_cases h1 : qtyDiffers (it.quantity.getD 0) (m.quantity.getD 0) <;>
          by_cases h2 : toleranceExceeded (it.unit_price.getD 0) (m.unit_price.getD 0) <;>
          simp [stepOne, hm, htr, getDesc, hd, bindOk, pureOk, h1, h2] at hres
      · simp [stepOne, hm, htr, getDesc, hd, bindOk, pureOk] at hres

/-- When every invoice item carries a description, the loop succeeds. -/
theorem itemLoop_ok :
    ∀ (l : List LineItem) (st : LoopState), (∀ it ∈ l, it.description.isSome) →
      ∃ st', itemLoop l st = Except.ok st' := by
  intro l
  induction l with
  | nil => exact fun st _ => ⟨st, rfl⟩
  | cons it rest ih =>
    intro st h
    obtain ⟨st₁, hstep⟩ := stepOne_ok it st (h it (List.mem_cons_self it rest))
    obtain ⟨st₂, hrest⟩ := ih st₁ (fun x hx => h x (List.mem_cons_of_mem it hx))
    exact ⟨st₂, by simp [itemLoop, hstep, exBindOk, hrest]⟩

/-- Counterexample to C1 as stated: an invoice line item with no
description that ends up unmatched makes `perform_matching` raise a
KeyError instead of returning a result. -/
theorem C1_counterexample :
    perform_matching invNoDesc poEmpty = Except.error keyErrorDescription := by
  with_unfolding_all rfl

/-- C1 (amended): `perform_matching` returns a `ReconciliationResult` for
every pair of records in which each invoice line item has a description;
absent `vendor_name` / `total_amount` / `items` / `quantity` /
`unit_price` fields are defaulted to the empty string, `[]`, `0` and `0.0`
by the `.get(...)` calls in the embedding and never fail.  (An invoice
item with no description raises `KeyError` when a quantity, price, or
unmatched-item detail line must interpolate it.) -/
theorem C1_total_with_descriptions (invoice_data po_data : Document)
    (h : ∀ it ∈ invoice_data.items.getD [], it.description.isSome) :
    ∃ r, perform_matching invoice_data po_data = Except.ok r := by
  obtain ⟨st', hst⟩ := itemLoop_ok (invoice_data.items.getD [])
    (initResults invoice_data po_data) h
  exact ⟨finalize invoice_data po_data st', by simp [perform_matching, hst, Except.map]⟩

/-- Witness for the amended C1: the mock invoice against an empty PO. -/
theorem C1_total_with_descriptions_witness :
    ∃ r, perform_matching mockInvoice poEmpty = Except.ok r :=
  C1_total_with_descriptions mockInvoice poEmpty (by decide)

theorem mapOk {α β : Type} (f : α → β) (x : Except String α) (r : β)
    (h : Except.map f x = Except.ok r) : ∃ a, x = Except.ok a ∧ r = f a := by
  cases x with
  | error e => simp [Except.map] at h
  | ok a =>
    simp [Except.map] at h
    exact ⟨a, rfl, h.symm⟩

/-- What one successful loop step does to the state: categories untouched,
details extended, and the pool loses exactly the matched item when the
match is truthy — a falsy (empty-dict) match or no match leaves the pool
alone. -/
theorem stepOne_ok_spec (it : LineItem) (st st' : LoopState)
    (h : stepOne it st = Except.ok st') :
    st'.cats = st.cats ∧ st.details <+: st'.details ∧
    st'.pool = (match extractFirstMatch it st.pool with
      | some (m, p') => if pyTruthy m = true then p' else st.pool
      | none => st.pool) := by
  cases hm : extractFirstMatch it st.pool with
  | none =>
    cases hd : it.description with
    | none => simp [stepOne, hm, getDesc, hd, bindOk, pureOk, bindError] at h
    | some d =>
      simp [stepOne, hm, getDesc, hd, bindOk, pureOk] at h
      subst h
      exact ⟨rfl, ⟨[unmatchedDetail d], rfl⟩, rfl⟩
  | some mp =>
    obtain ⟨m, p'⟩ := mp
    by_cases htr : pyTruthy m = true
    · by_cases h1 : qtyDiffers (it.quantity.getD 0) (m.quantity.getD 0) = true
      · cases hd : it.description with
        | none => simp [stepOne, hm, htr, getDesc, hd, bindOk, pureOk, bindError, h1] at h
        | some d =>
          by_cases h2 : toleranceExceeded (it.unit_price.getD 0) (m.unit_price.getD 0) = true
          · simp [stepOne, hm, htr, getDesc, hd, bindOk, pureOk, h1, h2, addMismatch] at h
            subst h
            refine ⟨rfl, ?_, by simp [htr]⟩
            simp only [List.append_assoc]
            exact List.prefix_append _ _
          · simp [stepOne, hm, htr, getDesc, hd, bindOk, pureOk, h1, h2, addMismatch] at h
            subst h
            exact ⟨rfl, List.prefix_append _ _, by simp [htr]⟩
      · by_cases h2 : toleranceExceeded (it.unit_price.getD 0) (m.unit_price.getD 0) = true
        · cases hd : it.description with
          | none => simp [stepOne, hm, htr, getDesc, hd, bindOk, pureOk, bindError, h1, h2] at h
          | some d =>
            simp [stepOne, hm, htr, getDesc, hd, bindOk, pureOk, h1, h2, addMismatch] at h
            subst h
            exact ⟨rfl, List.prefix_append _ _, by simp [htr]⟩
        · simp [stepOne, hm, htr, bindOk, pureOk, h1, h2] at h
          subst h
          exact ⟨rfl, ⟨[], List.append_nil _⟩, by simp [htr]⟩
    · cases hd : it.description with
      | none => simp [stepOne, hm, htr, getDesc, hd, bindOk, pureOk, bindError] at h
      | some d =>
        simp [stepOne, hm, htr, getDesc, hd, bindOk, pureOk] at h
        subst h
        exact ⟨rfl, ⟨[unmatchedDetail d], rfl⟩, by simp [htr, addMismatch]⟩

/-- The whole loop never touches the category list and only appends to the
details list. -/
theorem itemLoop_spec :
    ∀ (l : List LineItem) (st st' : LoopState), itemLoop l st = Except.ok st' →
      st'.cats = st.cats ∧ st.details <+: st'.details := by
  intro l
  induction l with
  | nil =>
    intro st st' h
    simp [itemLoop] at h
    subst h
    exact ⟨rfl, List.prefix_rfl⟩
  | cons it rest ih =>
    intro st st' h
    cases hs : stepOne it st with
    | error e => simp [itemLoop, hs, exBindError] at h
    | ok st₁ =>
      rw [itemLoop, hs, exBindOk] at h
      obtain ⟨hc, hd⟩ := ih st₁ st' h
      obtain ⟨hc', hd', _⟩ := stepOne_ok_spec it st st₁ hs
      exact ⟨hc.trans hc', hd'.trans hd⟩

theorem toleranceExceeded_iff (a b : ℚ) : toleranceExceeded a b = true ↔ |a - b| > 1/100 := by
  simp [toleranceExceeded]

theorem qtyDiffers_iff (a b : ℚ) : qtyDiffers a b = true ↔ a ≠ b := by
  simp [qtyDiffers, abs_pos, sub_ne_zero]

/-- `finalize` only ever extends the category list by the line-item
category, so membership of any other category is decided before it. -/
theorem finalize_cats_mem (inv po : Document) (st : LoopState) (c : String)
    (hc : c ≠ "Line Item Discrepancy") :
    (c ∈ (finalize inv po st).mismatch_categories ↔ c ∈ st.cats) := by
  simp only [finalize, addMismatch]
  split_ifs <;> simp [hc]

theorem finalize_details_extend (inv po : Document) (st : LoopState) :
    st.details <+: (finalize inv po st).details := by
  simp only [finalize, addMismatch]
  split_ifs <;>
    first
      | exact List.prefix_append _ _
      | (simp only [List.append_assoc]; exact List.prefix_append _ _)

/-- The status and summary a `ReconciliationResult` ends with, by the final
`isMatch` value. -/
theorem finalize_verdict (inv po : Document) (st : LoopState) :
    ((finalize inv po st).isMatch = false →
      (finalize inv po st).status = "NEEDS REVIEW" ∧
      (finalize inv po st).summary =
        discrepancySummary
          (joinComma (sortStrs (finalize inv po st).mismatch_categories.dedup))) ∧
    ((finalize inv po st).isMatch = true →
      (finalize inv po st).status = "APPROVED" ∧
      (finalize inv po st).summary = matchSummary) := by
  by_cases hp : st.pool.isEmpty = true
  · by_cases hM : st.isMatch = true <;> simp [finalize, addMismatch, hp, hM]
  · simp [finalize, addMismatch, hp]

/-- Counterexample to C9 as stated: an invoice item whose description
normalizes to empty, against a pool holding only the empty dict — the
matcher returns that first item, but the truthiness check of the loop
routes to the unmatched branch, so the item IS reported unmatched (an
unmatched-item line is appended) while the PO item remains in the pool. -/
theorem C9_counterexample :
    find_best_item_match itEmptyDesc [itEmpty] = some itEmpty ∧
    stepOne itEmptyDesc ⟨true, false, [], [], [itEmpty]⟩ =
      Except.ok ⟨false, true, [unmatchedDetail ""], [], [itEmpty]⟩ := by
  constructor
  · decide
  · with_unfolding_all rfl

/-- C9 (amended): an invoice item whose description is absent or
normalizes to the empty string matches the head of any non-empty pool —
the empty string is contained in every normalized candidate description —
and when that head is a truthy dict, the matched branch is taken and the
head is consumed, so the item is not reported unmatched; a falsy
(empty-dict) head instead falls into the unmatched branch of the
truthiness test. -/
theorem C9_empty_description_matches_head (it hd : LineItem) (t : List LineItem)
    (h : normalize_text (it.description.getD "") = "") :
    find_best_item_match it (hd :: t) = some hd ∧
    extractFirstMatch it (hd :: t) = some (hd, t) ∧
    (∀ (st st' : LoopState), pyTruthy hd = true → st.pool = hd :: t →
      stepOne it st = Except.ok st' → st'.pool = t) := by
  obtain ⟨h1, h2⟩ := empty_desc_matches_head it hd t h
  refine ⟨h1, h2, ?_⟩
  intro st st' htr hpool hstep
  obtain ⟨-, -, hpoolspec⟩ := stepOne_ok_spec it st st' hstep
  rw [hpool, h2] at hpoolspec
  simpa [htr] using hpoolspec

/-- Witness for the amended C9: an item with no description against a pool
holding one truthy item, which is consumed. -/
theorem C9_empty_description_matches_head_witness :
    find_best_item_match ⟨none, none, none⟩ [⟨some "Laptop", none, none⟩] =
      some ⟨some "Laptop", none, none⟩ ∧
    extractFirstMatch ⟨none, none, none⟩ [⟨some "Laptop", none, none⟩] =
      some (⟨some "Laptop", none, none⟩, []) ∧
    (⟨true, false, [], [], []⟩ : LoopState).pool = [] := by
  obtain ⟨h1, h2, h3⟩ :=
    C9_empty_description_matches_head ⟨none, none, none⟩ ⟨some "Laptop", none, none⟩ []
      (by decide)
  exact ⟨h1, h2,
    h3 ⟨true, false, [], [], [⟨some "Laptop", none, none⟩]⟩ ⟨true, false, [], [], []⟩
      (by decide) rfl (by with_unfolding_all rfl)⟩

/-- Counterexample to C3 as stated: the matcher matches the empty dict of
the PO, but the truthiness check routes to the unmatched branch, so the
matched PO item is never removed — the reconciliation of `invA` against
`poEmptyItem` reports the invoice item unmatched, leaves the matched dict
in the pool after the step, and counts it missing at the end. -/
theorem C3_counterexample :
    find_best_item_match itA [itEmpty] = some itEmpty ∧
    stepOne itA ⟨true, false, [], [], [itEmpty]⟩ =
      Except.ok ⟨false, true, [unmatchedDetail "a"], [], [itEmpty]⟩ ∧
    perform_matching invA poEmptyItem = Except.ok rC3cex := by
  refine ⟨by decide, ?_, ?_⟩ <;> with_unfolding_all rfl

/-- C3 (amended): a matched PO item that is truthy (a non-empty dict) is
consumed exactly once — the pool handed to the rest of the loop is the
input pool with the matched occurrence removed, whatever the quantity and
price checks said; a matched empty dict falls into the unmatched branch of
the truthiness test and stays in the pool.  A non-empty leftover pool
makes the result a mismatch with exactly one aggregate missing-items line,
reporting only the count, appended after the details of the loop. -/
theorem C3_consume_once_and_missing_aggregate :
    (∀ (it : LineItem) (st st' : LoopState) (m : LineItem) (p' : List LineItem),
      extractFirstMatch it st.pool = some (m, p') →
      pyTruthy m = true →
      stepOne it st = Except.ok st' →
      st'.pool = p' ∧ st.pool.Perm (m :: p')) ∧
    (∀ (invoice_data po_data : Document) (st : LoopState) (r : ReconciliationResult),
      itemLoop (invoice_data.items.getD []) (initResults invoice_data po_data) =
        Except.ok st →
      perform_matching invoice_data po_data = Except.ok r →
      st.pool ≠ [] →
      r.isMatch = false ∧ r.details = st.details ++ [missingDetail st.pool.length]) := by
  constructor
  · intro it st st' m p' hex htr hstep
    obtain ⟨-, -, hpool⟩ := stepOne_ok_spec it st st' hstep
    have hperm : st.pool.Perm (m :: p') := by
      obtain ⟨l₁, l₂, hdecomp, hp'eq, -, -⟩ := extractFirstMatch_some it st.pool m p' hex
      rw [hdecomp, hp'eq]
      exact List.perm_middle
    rw [hex] at hpool
    simp only [htr, if_true] at hpool
    exact ⟨hpool, hperm⟩
  · intro invoice_data po_data st r hloop h hpool
    unfold perform_matching at h
    obtain ⟨st2, hloop2, rfl⟩ := mapOk _ _ _ h
    rw [hloop] at hloop2
    injection hloop2 with he
    subst he
    have hp : st.pool.isEmpty = false := by simpa [List.isEmpty_iff] using hpool
    constructor <;> simp [finalize, addMismatch, hp]

/-- Witness for C3: a one-item pool consumed by a matching item, and an
empty invoice against a one-item PO producing the aggregate line. -/
theorem C3_consume_once_and_missing_aggregate_witness :
    ((⟨true, false, [], [], []⟩ : LoopState).pool = [] ∧ stA.pool.Perm (itA :: [])) ∧
    ((finalize invEmptyItems poOneItem (initResults invEmptyItems poOneItem)).isMatch = false ∧
      (finalize invEmptyItems poOneItem (initResults invEmptyItems poOneItem)).details =
        (initResults invEmptyItems poOneItem).details ++
          [missingDetail (initResults invEmptyItems poOneItem).pool.length]) :=
  ⟨C3_consume_once_and_missing_aggregate.1 itA stA ⟨true, false, [], [], []⟩ itA []
      (by decide) (by decide) (by with_unfolding_all rfl),
   C3_consume_once_and_missing_aggregate.2 invEmptyItems poOneItem
      (initResults invEmptyItems poOneItem)
      (finalize invEmptyItems poOneItem (initResults invEmptyItems poOneItem))
      rfl rfl (by decide)⟩

/-- C4: the total-amount and unit-price comparisons flag a mismatch exactly
when the absolute difference exceeds 0.01, the quantity comparison flags
any non-zero difference (exact equality, no tolerance), and a total
mismatch contributes the Total Price Variance category with a detail line
rendering both totals to two decimals and the rounded absolute
difference. -/
theorem C4_comparison_tolerances (invoice_data po_data : Document)
    (r : ReconciliationResult)
    (h : perform_matching invoice_data po_data = Except.ok r) :
    (("Total Price Variance" ∈ r.mismatch_categories) ↔
      |invoice_data.total_amount.getD 0 - po_data.total_amount.getD 0| > 1/100) ∧
    (|invoice_data.total_amount.getD 0 - po_data.total_amount.getD 0| > 1/100 →
      totalMismatchDetail (invoice_data.total_amount.getD 0)
        (po_data.total_amount.getD 0) ∈ r.details) ∧
    (∀ a b : ℚ, qtyDiffers a b = true ↔ a ≠ b) ∧
    (∀ a b : ℚ, toleranceExceeded a b = true ↔ |a - b| > 1/100) := by
  unfold perform_matching at h
  obtain ⟨st', hloop, rfl⟩ := mapOk _ _ _ h
  obtain ⟨hcats, hdet⟩ := itemLoop_spec _ _ _ hloop
  refine ⟨?_, ?_, qtyDiffers_iff, toleranceExceeded_iff⟩
  · rw [finalize_cats_mem _ _ _ _ (by decide), hcats,
      ← toleranceExceeded_iff]
    simp only [initResults]
    by_cases hv : (normalize_text (invoice_data.vendor_name.getD "") ==
        normalize_text (po_data.vendor_name.getD "")) = true <;>
      by_cases ht : toleranceExceeded (invoice_data.total_amount.getD 0)
          (po_data.total_amount.getD 0) = true <;>
      simp [hv, ht]
  · intro hgt
    have hmem : totalMismatchDetail (invoice_data.total_amount.getD 0)
        (po_data.total_amount.getD 0) ∈ (initResults invoice_data po_data).details := by
      simp [initResults, (toleranceExceeded_iff _ _).mpr hgt]
    exact (hdet.trans (finalize_details_extend invoice_data po_data st')).subset hmem

/-- Witness for C4 at a pair of documents with a large total difference. -/
theorem C4_comparison_tolerances_witness :
    (("Total Price Variance" ∈
        (finalize invT poT (initResults invT poT)).mismatch_categories) ↔
      |invT.total_amount.getD 0 - poT.total_amount.getD 0| > 1/100) ∧
    (|invT.total_amount.getD 0 - poT.total_amount.getD 0| > 1/100 →
      totalMismatchDetail (invT.total_amount.getD 0) (poT.total_amount.getD 0) ∈
        (finalize invT poT (initResults invT poT)).details) ∧
    (∀ a b : ℚ, qtyDiffers a b = true ↔ a ≠ b) ∧
    (∀ a b : ℚ, toleranceExceeded a b = true ↔ |a - b| > 1/100) :=
  C4_comparison_tolerances invT poT (finalize invT poT (initResults invT poT)) rfl

/-- C5: an `isMatch = false` result has status NEEDS REVIEW and a summary
embedding the sorted, deduplicated category names joined by a comma
separator inside the fixed template sentence; an `isMatch = true` result
has status APPROVED and the fixed success sentence, which replaces the
default summary set at construction. -/
theorem C5_summary_synthesis :
    (∀ (invoice_data po_data : Document) (r : ReconciliationResult),
      perform_matching invoice_data po_data = Except.ok r → r.isMatch = false →
      r.status = "NEEDS REVIEW" ∧
      r.summary = discrepancySummary (joinComma (sortStrs r.mismatch_categories.dedup))) ∧
    (∀ (invoice_data po_data : Document) (r : ReconciliationResult),
      perform_matching invoice_data po_data = Except.ok r → r.isMatch = true →
      r.status = "APPROVED" ∧ r.summary = matchSummary ∧ matchSummary ≠ initialSummary) := by
  constructor
  · intro invoice_data po_data r h hfalse
    unfold perform_matching at h
    obtain ⟨st', -, rfl⟩ := mapOk _ _ _ h
    exact (finalize_verdict invoice_data po_data st').1 hfalse
  · intro invoice_data po_data r h htrue
    unfold perform_matching at h
    obtain ⟨st', -, rfl⟩ := mapOk _ _ _ h
    obtain ⟨hs, hsum⟩ := (finalize_verdict invoice_data po_data st').2 htrue
    exact ⟨hs, hsum, by decide⟩

/-- Witness for C5: a mismatching pair and the matching mock pair. -/
theorem C5_summary_synthesis_witness :
    ((finalize invT poT (initResults invT poT)).status = "NEEDS REVIEW" ∧
      (finalize invT poT (initResults invT poT)).summary =
        discrepancySummary (joinComma
          (sortStrs (finalize invT poT (initResults invT poT)).mismatch_categories.dedup))) ∧
    (mockResult.status = "APPROVED" ∧ mockResult.summary = matchSummary ∧
      matchSummary ≠ initialSummary) :=
  ⟨C5_summary_synthesis.1 invT poT (finalize invT poT (initResults invT poT)) rfl
      (by with_unfolding_all rfl),
   C5_summary_synthesis.2 mockInvoice mockPo mockResult mockMatch rfl⟩

/-! Lemmas about the normalizer, towards C6. -/

theorem pySplit_cons (c : Char) (rest : List Char) :
    pySplit (c :: rest) =
      if isPySpace c then pySplit rest
      else
        match rest with
        | [] => [[c]]
        | d :: _ =>
          if isPySpace d then [c] :: pySplit rest
          else
            match pySplit rest with
            | [] => [[c]]
            | w :: ws => (c :: w) :: ws := rfl

/-- Every word produced by the splitter is non-empty, space-free, and made
of characters of the input. -/
theorem pySplit_mem :
    ∀ (l : List Char) (w : List Char), w ∈ pySplit l →
      w ≠ [] ∧ ∀ c ∈ w, isPySpace c = false ∧ c ∈ l := by
  intro l
  induction l with
  | nil => intro w hw; simp [pySplit] at hw
  | cons c rest ih =>
    intro w hw
    rw [pySplit_cons] at hw
    by_cases hc : isPySpace c = true
    · rw [if_pos hc] at hw
      obtain ⟨hne, hchars⟩ := ih w hw
      exact ⟨hne, fun x hx => ⟨(hchars x hx).1, List.mem_cons_of_mem c (hchars x hx).2⟩⟩
    · rw [if_neg hc] at hw
      have hcf : isPySpace c = false := by simpa using hc
      cases rest with
      | nil =>
        simp at hw
        subst hw
        exact ⟨by simp, by simp [hcf]⟩
      | cons d rest' =>
        by_cases hd : isPySpace d = true
        · simp only [if_pos hd] at hw
          rcases List.mem_cons.mp hw with rfl | hw'
          · exact ⟨by simp, by simp [hcf]⟩
          · obtain ⟨hne, hchars⟩ := ih w hw'
            exact ⟨hne, fun x hx => ⟨(hchars x hx).1, List.mem_cons_of_mem c (hchars x hx).2⟩⟩
        · simp only [if_neg hd] at hw
          cases hsplit : pySplit (d :: rest') with
          | nil =>
            rw [hsplit] at hw
            simp at hw
            subst hw
            exact ⟨by simp, by simp [hcf]⟩
          | cons w₀ ws₀ =>
            rw [hsplit] at hw
            rcases List.mem_cons.mp hw with rfl | hw'
            · have hmem : w₀ ∈ pySplit (d :: rest') := by rw [hsplit]; exact List.mem_cons_self _ _
              obtain ⟨-, hchars⟩ := ih w₀ hmem
              refine ⟨by simp, ?_⟩
              intro x hx
              rcases List.mem_cons.mp hx with rfl | hx'
              · exact ⟨hcf, List.mem_cons_self _ _⟩
              · exact ⟨(hchars x hx').1, List.mem_cons_of_mem c (hchars x hx').2⟩
            · have hmem : w ∈ pySplit (d :: rest') := by
                rw [hsplit]; exact List.mem_cons_of_mem w₀ hw'
              obtain ⟨hne, hchars⟩ := ih w hmem
              exact ⟨hne, fun x hx => ⟨(hchars x hx).1, List.mem_cons_of_mem c (hchars x hx).2⟩⟩

/-- Splitting a space-free non-empty word followed by a space separator
peels off exactly that word. -/
theorem pySplit_word_sep :
    ∀ (w t : List Char), w ≠ [] → (∀ c ∈ w, isPySpace c = false) →
      pySplit (w ++ ' ' :: t) = w :: pySplit t := by
  intro w
  induction w with
  | nil => intro t h; exact absurd rfl h
  | cons a w' ih =>
    intro t _ hchars
    have ha : isPySpace a = false := hchars a (List.mem_cons_self a w')
    cases w' with
    | nil =>
      show pySplit (a :: ' ' :: t) = [a] :: pySplit t
      rw [pySplit_cons]
      simp only [ha, Bool.false_eq_true, if_false]
      have hsp : isPySpace ' ' = true := by decide
      simp only [hsp, if_true]
      rw [pySplit_cons]
      simp only [hsp, if_true]
    | cons b w'' =>
      have hb : isPySpace b = false :=
        hchars b (List.mem_cons_of_mem a (List.mem_cons_self b w''))
      have hrec := ih t (by simp) (fun c hc => hchars c (List.mem_cons_of_mem a hc))
      show pySplit (a :: (b :: w'' ++ ' ' :: t)) = (a :: b :: w'') :: pySplit t
      rw [pySplit_cons]
      simp only [ha, Bool.false_eq_true, if_false]
      simp only [List.cons_append, hb, Bool.false_eq_true, if_false]
      rw [← List.cons_append, hrec]

/-- Splitting a space-free non-empty word alone gives exactly that word. -/
theorem pySplit_word_only :
    ∀ (w : List Char), w ≠ [] → (∀ c ∈ w, isPySpace c = false) →
      pySplit w = [w] := by
  intro w
  induction w with
  | nil => intro h; exact absurd rfl h
  | cons a w' ih =>
    intro _ hchars
    have ha : isPySpace a = false := hchars a (List.mem_cons_self a w')
    cases w' with
    | nil => rw [pySplit_cons]; simp [ha]
    | cons b w'' =>
      have hb : isPySpace b = false :=
        hchars b (List.mem_cons_of_mem a (List.mem_cons_self b w''))
      have hrec := ih (by simp) (fun c hc => hchars c (List.mem_cons_of_mem a hc))
      rw [pySplit_cons]
      simp only [ha, Bool.false_eq_true, if_false, hb]
      rw [hrec]

/-- Splitting the space-join of good words recovers the words. -/
theorem pySplit_joinSp :
    ∀ (ws : List (List Char)),
      (∀ w ∈ ws, w ≠ [] ∧ ∀ c ∈ w, isPySpace c = false) →
      pySplit (joinSp ws) = ws := by
  intro ws
  induction ws with
  | nil => intro _; rfl
  | cons w ws' ih =>
    intro h
    obtain ⟨hne, hchars⟩ := h w (List.mem_cons_self w ws')
    cases ws' with
    | nil => exact pySplit_word_only w hne hchars
    | cons x ws'' =>
      show pySplit (w ++ ' ' :: joinSp (x :: ws'')) = w :: x :: ws''
      rw [pySplit_word_sep w _ hne hchars,
        ih (fun v hv => h v (List.mem_cons_of_mem w hv))]

/-- Every character of a space-join is a space or a word character. -/
theorem mem_joinSp :
    ∀ (ws : List (List Char)) (c : Char), c ∈ joinSp ws →
      c = ' ' ∨ ∃ w ∈ ws, c ∈ w := by
  intro ws
  induction ws with
  | nil => intro c hc; simp [joinSp] at hc
  | cons w ws' ih =>
    intro c hc
    cases ws' with
    | nil => exact Or.inr ⟨w, List.mem_cons_self w [], hc⟩
    | cons x ws'' =>
      rw [show joinSp (w :: x :: ws'') = w ++ ' ' :: joinSp (x :: ws'') from rfl] at hc
      rcases List.mem_append.mp hc with hw | hrest
      · exact Or.inr ⟨w, List.mem_cons_self w _, hw⟩
      · rcases List.mem_cons.mp hrest with rfl | hj
        · exact Or.inl rfl
        · rcases ih c hj with h | ⟨v, hv, hcv⟩
          · exact Or.inl h
          · exact Or.inr ⟨v, List.mem_cons_of_mem w hv, hcv⟩

/-- Lowercasing fixes every character the filter keeps. -/
theorem pyLower_fix (c : Char) (h : keepChar c = true) : pyLower c = c := by
  have hcond : (decide ('A' ≤ c) && decide (c ≤ 'Z')) = false := by
    simp only [Bool.and_eq_true, decide_eq_true_eq, Bool.eq_false_iff, ne_eq]
    intro ⟨hA, hZ⟩
    simp only [keepChar, isLowerAlphaNum, isPySpace, Bool.or_eq_true, Bool.and_eq_true,
      decide_eq_true_eq, beq_iff_eq] at h
    rcases h with ((⟨h1, -⟩ | ⟨-, h2⟩) | hsp)
    · exact absurd (le_trans h1 hZ) (by decide)
    · exact absurd (le_trans hA h2) (by decide)
    · rcases hsp with ((((rfl | rfl) | rfl) | rfl) | rfl) | rfl <;> exact absurd hA (by decide)
  simp [pyLower, hcond]

theorem mapFix (f : Char → Char) :
    ∀ (l : List Char), (∀ c ∈ l, f c = c) → l.map f = l := by
  intro l
  induction l with
  | nil => intro _; rfl
  | cons a t ih =>
    intro h
    simp only [List.map_cons, h a (List.mem_cons_self a t),
      ih (fun c hc => h c (List.mem_cons_of_mem a hc))]

/-- Every character of the normalized text is a lowercase letter, a digit,
or a single space character. -/
theorem normalizeL_chars (l : List Char) :
    ∀ c ∈ normalizeL l, isLowerAlphaNum c = true ∨ c = ' ' := by
  intro c hc
  rcases mem_joinSp _ c hc with h | ⟨w, hw, hcw⟩
  · exact Or.inr h
  · obtain ⟨-, hchars⟩ := pySplit_mem _ w hw
    obtain ⟨hns, hmem⟩ := hchars c hcw
    have hkeep : keepChar c = true := (List.mem_filter.mp hmem).2
    rcases (show isLowerAlphaNum c = true ∨ isPySpace c = true by
      simpa [keepChar] using hkeep) with hl | hs
    · exact Or.inl hl
    · rw [hns] at hs
      exact absurd hs (by simp)

/-- The words of the normalized text are good: non-empty and space-free. -/
theorem normalizeL_words (l : List Char) :
    ∀ w ∈ pySplit ((l.map pyLower).filter keepChar),
      w ≠ [] ∧ ∀ c ∈ w, isPySpace c = false := by
  intro w hw
  obtain ⟨hne, hchars⟩ := pySplit_mem _ w hw
  exact ⟨hne, fun c hc => (hchars c hc).1⟩

/-- All characters of the normalized text survive the filter. -/
theorem normalizeL_keep (l : List Char) :
    ∀ c ∈ normalizeL l, keepChar c = true := by
  intro c hc
  rcases normalizeL_chars l c hc with h | rfl
  · simp [keepChar, h]
  · simp [keepChar, isPySpace]

/-- The normalizer is idempotent. -/
theorem normalizeL_idem (l : List Char) : normalizeL (normalizeL l) = normalizeL l := by
  have hmap : (normalizeL l).map pyLower = normalizeL l :=
    mapFix _ _ (fun c hc => pyLower_fix c (normalizeL_keep l c hc))
  have hfil : (normalizeL l).filter keepChar = normalizeL l :=
    List.filter_eq_self.mpr (fun c hc => normalizeL_keep l c hc)
  show joinSp (pySplit (((normalizeL l).map pyLower).filter keepChar)) = normalizeL l
  rw [hmap, hfil]
  show joinSp (pySplit (joinSp (pySplit ((l.map pyLower).filter keepChar)))) = normalizeL l
  rw [pySplit_joinSp _ (normalizeL_words l)]
  rfl

theorem not_space_beq (a : Char) (h : isPySpace a = false) : (a == ' ') = false := by
  cases hab : a == ' ' with
  | false => rfl
  | true =>
    have ha : a = ' ' := by simpa using hab
    subst ha
    simp [isPySpace] at h

theorem noDoubleSpace_word_append :
    ∀ (w l : List Char), (∀ c ∈ w, isPySpace c = false) → noDoubleSpace l = true →
      noDoubleSpace (w ++ l) = true := by
  intro w
  induction w with
  | nil => intro l _ hl; simpa using hl
  | cons a w' ih =>
    intro l hchars hl
    have ha := not_space_beq a (hchars a (List.mem_cons_self a w'))
    cases w' with
    | nil =>
      cases l with
      | nil => rfl
      | cons b t => simp [noDoubleSpace, ha, hl]
    | cons b w'' =>
      have htail : noDoubleSpace (b :: (w'' ++ l)) = true := by
        have := ih l (fun c hc => hchars c (List.mem_cons_of_mem a hc)) hl
        simpa using this
      simp [noDoubleSpace, ha, htail]

theorem noDoubleSpace_space_cons (j : List Char) (hh : j.head? ≠ some ' ')
    (hj : noDoubleSpace j = true) : noDoubleSpace (' ' :: j) = true := by
  cases j with
  | nil => rfl
  | cons b t =>
    have hb : (b == ' ') = false := by
      cases hab : b == ' ' with
      | false => rfl
      | true =>
        have hbe : b = ' ' := by simpa using hab
        subst hbe
        exact absurd rfl hh
    simp [noDoubleSpace, hb, hj]

theorem joinSp_ne_nil :
    ∀ (ws : List (List Char)), ws ≠ [] → (∀ w ∈ ws, w ≠ []) → joinSp ws ≠ [] := by
  intro ws h1 h2
  cases ws with
  | nil => exact absurd rfl h1
  | cons w ws' =>
    cases ws' with
    | nil => exact h2 w (List.mem_cons_self w [])
    | cons x t =>
      show w ++ ' ' :: joinSp (x :: t) ≠ []
      intro hc
      exact absurd (List.append_eq_nil.mp hc).2 (by simp)

theorem joinSp_head :
    ∀ (ws : List (List Char)),
      (∀ w ∈ ws, w ≠ [] ∧ ∀ c ∈ w, isPySpace c = false) →
      (joinSp ws).head? ≠ some ' ' := by
  intro ws h
  cases ws with
  | nil => simp [joinSp]
  | cons w ws' =>
    obtain ⟨hne, hchars⟩ := h w (List.mem_cons_self w ws')
    cases w with
    | nil => exact absurd rfl hne
    | cons a w₀ =>
      have ha : isPySpace a = false := hchars a (List.mem_cons_self a w₀)
      have hane : a ≠ ' ' := by
        intro hc; subst hc; simp [isPySpace] at ha
      cases ws' with
      | nil =>
        show (a :: w₀).head? ≠ some ' '
        simp [hane]
      | cons x t =>
        show ((a :: w₀) ++ ' ' :: joinSp (x :: t)).head? ≠ some ' '
        simp [hane]

theorem joinSp_last :
    ∀ (ws : List (List Char)),
      (∀ w ∈ ws, w ≠ [] ∧ ∀ c ∈ w, isPySpace c = false) →
      (joinSp ws).getLast? ≠ some ' ' := by
  intro ws
  induction ws with
  | nil => intro _; simp [joinSp]
  | cons w ws' ih =>
    intro h
    obtain ⟨hne, hchars⟩ := h w (List.mem_cons_self w ws')
    cases ws' with
    | nil =>
      show w.getLast? ≠ some ' '
      intro hlast
      obtain ⟨hw, h2⟩ := List.mem_getLast?_eq_getLast (show ' ' ∈ w.getLast? from hlast)
      have hmem : ' ' ∈ w := h2 ▸ List.getLast_mem hw
      have := hchars ' ' hmem
      simp [isPySpace] at this
    | cons x t =>
      have hgood : ∀ v ∈ x :: t, v ≠ [] ∧ ∀ c ∈ v, isPySpace c = false :=
        fun v hv => h v (List.mem_cons_of_mem w hv)
      have hJne : joinSp (x :: t) ≠ [] :=
        joinSp_ne_nil (x :: t) (by simp) (fun v hv => (hgood v hv).1)
      have hih := ih hgood
      show (w ++ ' ' :: joinSp (x :: t)).getLast? ≠ some ' '
      cases hJ : joinSp (x :: t) with
      | nil => exact absurd hJ hJne
      | cons j0 jt =>
        rw [hJ] at hih
        simp only [List.getLast?_append, List.getLast?_cons_cons]
        cases hL : (j0 :: jt).getLast? with
        | none => simp at hL
        | some b =>
          rw [hL] at hih
          simpa [Option.or] using hih

theorem joinSp_noDouble :
    ∀ (ws : List (List Char)),
      (∀ w ∈ ws, w ≠ [] ∧ ∀ c ∈ w, isPySpace c = false) →
      noDoubleSpace (joinSp ws) = true := by
  intro ws
  induction ws with
  | nil => intro _; rfl
  | cons w ws' ih =>
    intro h
    obtain ⟨hne, hchars⟩ := h w (List.mem_cons_self w ws')
    cases ws' with
    | nil =>
      show noDoubleSpace w = true
      have := noDoubleSpace_word_append w [] hchars rfl
      simpa using this
    | cons x t =>
      have hgood : ∀ v ∈ x :: t, v ≠ [] ∧ ∀ c ∈ v, isPySpace c = false :=
        fun v hv => h v (List.mem_cons_of_mem w hv)
      have hsp : noDoubleSpace (' ' :: joinSp (x :: t)) = true :=
        noDoubleSpace_space_cons _ (joinSp_head (x :: t) hgood) (ih hgood)
      show noDoubleSpace (w ++ ' ' :: joinSp (x :: t)) = true
      exact noDoubleSpace_word_append w _ hchars hsp

/-- C6: `normalize_text` is idempotent, and its output consists only of
lowercase ASCII letters, digits and single spaces — no leading space, no
trailing space, no two consecutive spaces. -/
theorem C6_normalize_idempotent_shape (s : String) :
    normalize_text (normalize_text s) = normalize_text s ∧
    (∀ c ∈ (normalize_text s).data, isLowerAlphaNum c = true ∨ c = ' ') ∧
    (normalize_text s).data.head? ≠ some ' ' ∧
    (normalize_text s).data.getLast? ≠ some ' ' ∧
    noDoubleSpace (normalize_text s).data = true := by
  refine ⟨?_, ?_, ?_, ?_, ?_⟩
  · show String.mk (normalizeL (normalizeL s.data)) = String.mk (normalizeL s.data)
    rw [normalizeL_idem]
  · exact normalizeL_chars s.data
  · exact joinSp_head _ (normalizeL_words s.data)
  · exact joinSp_last _ (normalizeL_words s.data)
  · exact joinSp_noDouble _ (normalizeL_words s.data)

/-- Witness for C6 at a concrete string. -/
theorem C6_normalize_idempotent_shape_witness :
    normalize_text (normalize_text "  TechSupply   Co.") =
      normalize_text "  TechSupply   Co." ∧
    (∀ c ∈ (normalize_text "  TechSupply   Co.").data,
      isLowerAlphaNum c = true ∨ c = ' ') ∧
    (normalize_text "  TechSupply   Co.").data.head? ≠ some ' ' ∧
    (normalize_text "  TechSupply   Co.").data.getLast? ≠ some ' ' ∧
    noDoubleSpace (normalize_text "  TechSupply   Co.").data = true :=
  C6_normalize_idempotent_shape "  TechSupply   Co."
